import Mathlib

/-!
# Verification of the TTS Flask server front-end job logic

This file gives a shallow embedding of the browser-side job logic of the
TTS-FLASK-SERVER-PL repository and proves the specified properties of it.

* progress rendering of the queue table (`renderJobRow` in
  `flask_app/static/js/queue.js`) and of the header status line
  (`startStatusPolling` in `flask_app/static/js/main.js`);
* per-job action buttons (`renderJobRow` in `queue.js`);
* chapter import (`importChapters` in `main.js`);
* live speaker statistics (`updateLiveStats` in `main.js`);
* the silence-trim threshold of the settings form (`settings.js`);
* HTML escaping (`escapeHtml` in `main.js`).

Modelling conventions: JavaScript numbers are modelled as exact rationals
(`ℚ`), `Math.floor` as `Int.floor`, strings as `String` or `List Char`,
and JavaScript `x || d` defaulting on numeric fields as an explicit test
against the falsy value.
-/

namespace TTSFlask

/-- One element of a job snapshot's `chapter_states` array, with the fields
read by `renderJobRow` (queue.js) and `startStatusPolling` (main.js). -/
structure ChapterState where
  chapter_index : Nat
  status : String
  current_chunk : Nat
  total_chunks : Nat

/-- A job snapshot as consumed by the queue renderer and the status poller.
`total_chapters = 0` also models a missing field, and `progress` models
`job.progress || 0` (the raw progress field from the API, defaulted to 0). -/
structure Job where
  status : String
  progress : Int := 0
  total_chapters : Nat := 0
  completed_chapters : Nat := 0
  chapter_states : List ChapterState := []

/-- The `runningFraction` accumulation shared by queue.js lines 74–82 and
main.js lines 753–761: a fold over `chapter_states` adding
`current_chunk / total_chunks` for every state with status `"processing"`
and `total_chunks > 0`. -/
def runningFraction (states : List ChapterState) : ℚ :=
  states.foldl
    (fun acc state =>
      if state.status = "processing" ∧ 0 < state.total_chunks then
        acc + (state.current_chunk : ℚ) / (state.total_chunks : ℚ)
      else acc) 0

/-- The `progress` local variable computed by `renderJobRow`
(queue.js lines 70–86): starts as `job.progress || 0`, is replaced by
`Math.min(99, Math.floor(((cc + runningFraction) / tch) * 100))` for a
processing or paused job (with `tch = job.total_chapters || 1` and
`cc = job.completed_chapters || 0`), and by `100` for a completed job. -/
def renderJobRowProgress (job : Job) : Int :=
  if job.status = "processing" ∨ job.status = "paused" then
    min 99 ⌊(((job.completed_chapters : ℚ) + runningFraction job.chapter_states) /
      ((if job.total_chapters = 0 then 1 else job.total_chapters : Nat) : ℚ)) * 100⌋
  else if job.status = "completed" then 100
  else job.progress

/-- The percent value shown in the header by `startStatusPolling`
(main.js lines 750–765), computed for the job the poller found with status
`"processing"`; the JS repeats the queue.js formula verbatim. -/
def startStatusPollingProgress (job : Job) : Int :=
  min 99 ⌊(((job.completed_chapters : ℚ) + runningFraction job.chapter_states) /
    ((if job.total_chapters = 0 then 1 else job.total_chapters : Nat) : ℚ)) * 100⌋

/-- The percent number the queue row's progress column actually displays
(`progressCol`, queue.js lines 121–155): `some` of the computed progress for
a processing or paused row, `some 100` for a completed row (both the
with-files and the without-files branch print `100%`), and `none` (a dash)
for every other status. -/
def displayedProgress (job : Job) : Option Int :=
  if job.status = "processing" then some (renderJobRowProgress job)
  else if job.status = "paused" then some (renderJobRowProgress job)
  else if job.status = "completed" then some 100
  else none

/-- The spec's running fraction, written as it is worded there: the sum of
`current_chunk / total_chunks` over exactly the chapters whose status is
`"processing"` (no guard on `total_chunks`). Used to compare the code
against the spec's formula. -/
def specRunningFraction (states : List ChapterState) : ℚ :=
  ((states.filter (fun st => st.status = "processing")).map
    (fun st => (st.current_chunk : ℚ) / (st.total_chunks : ℚ))).sum

/-- The action buttons a queue row can offer. -/
inductive ActionButton where
  | pauseBtn
  | resumeBtn
  | cancelBtn
  | deleteBtn
deriving DecidableEq

/-- The `actions` markup built by `renderJobRow` (queue.js lines 157–166),
abstracted to the list of buttons it contains: exactly one of
pause / resume / cancel depending on the status (processing / paused /
queued), none otherwise, followed by the unconditional delete button. -/
def renderJobRowActions (job : Job) : List ActionButton :=
  (if job.status = "processing" then [ActionButton.pauseBtn]
   else if job.status = "paused" then [ActionButton.resumeBtn]
   else if job.status = "queued" then [ActionButton.cancelBtn]
   else []) ++ [ActionButton.deleteBtn]

/-- Structural-recursion twin of the `runningFraction` fold, used in proofs. -/
def runningFractionRec : List ChapterState → ℚ
  | [] => 0
  | st :: rest =>
    (if st.status = "processing" ∧ 0 < st.total_chunks then
      (st.current_chunk : ℚ) / (st.total_chunks : ℚ)
    else 0) + runningFractionRec rest

/-- Unfolding the `runningFraction` fold from an arbitrary accumulator. -/
theorem runningFraction_foldl (states : List ChapterState) (acc : ℚ) :
    states.foldl
      (fun acc state =>
        if state.status = "processing" ∧ 0 < state.total_chunks then
          acc + (state.current_chunk : ℚ) / (state.total_chunks : ℚ)
        else acc) acc = acc + runningFractionRec states := by
  induction states generalizing acc with
  | nil => simp [runningFractionRec]
  | cons st rest ih =>
    simp only [List.foldl_cons]
    rw [ih, runningFractionRec]
    by_cases h : st.status = "processing" ∧ 0 < st.total_chunks
    · rw [if_pos h, if_pos h]
      ring
    · rw [if_neg h, if_neg h]
      ring

/-- The fold of the source equals its recursive twin. -/
theorem runningFraction_eq_rec (states : List ChapterState) :
    runningFraction states = runningFractionRec states := by
  have h := runningFraction_foldl states 0
  simpa [runningFraction] using h

/-- Cons rule for `runningFraction`. -/
theorem runningFraction_cons (st : ChapterState) (rest : List ChapterState) :
    runningFraction (st :: rest) =
      (if st.status = "processing" ∧ 0 < st.total_chunks then
        (st.current_chunk : ℚ) / (st.total_chunks : ℚ)
      else 0) + runningFraction rest := by
  rw [runningFraction_eq_rec, runningFraction_eq_rec, runningFractionRec]

/-- The code's guarded fold agrees with the spec's unguarded sum whenever
every processing chapter has a positive chunk total. -/
theorem runningFraction_eq_spec (states : List ChapterState)
    (h : ∀ st ∈ states, st.status = "processing" → 0 < st.total_chunks) :
    runningFraction states = specRunningFraction states := by
  induction states with
  | nil => simp [runningFraction, specRunningFraction]
  | cons st rest ih =>
    rw [runningFraction_cons]
    have hrest : ∀ st ∈ rest, st.status = "processing" → 0 < st.total_chunks :=
      fun s hs => h s (List.mem_cons_of_mem _ hs)
    by_cases hp : st.status = "processing"
    · have hpos : 0 < st.total_chunks := h st (List.mem_cons_self _ _) hp
      rw [if_pos ⟨hp, hpos⟩]
      simp only [specRunningFraction, List.filter_cons, hp]
      simp [ih hrest, specRunningFraction]
    · rw [if_neg (fun hc => hp hc.1)]
      simp only [specRunningFraction, List.filter_cons]
      have : (decide (st.status = "processing")) = false := by
        simpa using hp
      simp [this, ih hrest, specRunningFraction]

/-- `runningFraction` is never negative. -/
theorem runningFraction_nonneg (states : List ChapterState) :
    0 ≤ runningFraction states := by
  induction states with
  | nil => simp [runningFraction]
  | cons st rest ih =>
    rw [runningFraction_cons]
    by_cases h : st.status = "processing" ∧ 0 < st.total_chunks
    · rw [if_pos h]
      have : (0 : ℚ) ≤ (st.current_chunk : ℚ) / (st.total_chunks : ℚ) :=
        div_nonneg (Nat.cast_nonneg _) (Nat.cast_nonneg _)
      linarith
    · rw [if_neg h]
      linarith

/-- C1: for every job snapshot rendered while the job is in a non-terminal
working state (processing or paused), with a positive `total_chapters` T and
every processing chapter exposing a positive `total_chunks`, the displayed
overall percent equals `floor((C + running_fraction) / T * 100)` clamped to
at most 99, where the running fraction is the sum of
`current_chunk / total_chunks` over exactly the chapters whose status is
`"processing"`. -/
theorem renderJobRow_matches_spec_formula (job : Job)
    (hwork : job.status = "processing" ∨ job.status = "paused")
    (htot : 0 < job.total_chapters)
    (hchunks : ∀ st ∈ job.chapter_states, st.status = "processing" →
      0 < st.total_chunks) :
    renderJobRowProgress job =
      min 99 ⌊(((job.completed_chapters : ℚ) +
        specRunningFraction job.chapter_states) /
        (job.total_chapters : ℚ)) * 100⌋ := by
  unfold renderJobRowProgress
  rw [if_pos hwork, if_neg (Nat.pos_iff_ne_zero.mp htot),
    runningFraction_eq_spec _ hchunks]

/-- Witness for C1 at the concrete snapshot T = 3, C = 1, one processing
chapter at chunk 2 of 4. -/
theorem renderJobRow_matches_spec_formula_witness :
    0 < (3 : Nat) ∧
    renderJobRowProgress (Job.mk "processing" 0 3 1 [ChapterState.mk 0 "processing" 2 4]) =
      min 99 ⌊((((1 : Nat) : ℚ) +
        specRunningFraction [ChapterState.mk 0 "processing" 2 4]) /
        (((3 : Nat)) : ℚ)) * 100⌋ :=
  ⟨by decide,
    renderJobRow_matches_spec_formula _ (Or.inl rfl) (by decide) (by decide)⟩

/-- C2: whenever the queue row displays a percent value, that value is at
most 99 if the job's status is not `"completed"`, and is exactly 100 if the
status is `"completed"`. -/
theorem displayedProgress_bounds (job : Job) (p : Int)
    (h : displayedProgress job = some p) :
    (job.status ≠ "completed" → p ≤ 99) ∧ (job.status = "completed" → p = 100) := by
  have hwork : ∀ _ : job.status = "processing" ∨ job.status = "paused",
      renderJobRowProgress job ≤ 99 := by
    intro hw
    unfold renderJobRowProgress
    rw [if_pos hw]
    exact min_le_left _ _
  unfold displayedProgress at h
  by_cases h1 : job.status = "processing"
  · rw [if_pos h1] at h
    have hp : renderJobRowProgress job = p := by simpa using h
    refine ⟨fun _ => hp ▸ hwork (Or.inl h1), fun hc => ?_⟩
    exact absurd (h1.symm.trans hc) (by decide)
  · rw [if_neg h1] at h
    by_cases h2 : job.status = "paused"
    · rw [if_pos h2] at h
      have hp : renderJobRowProgress job = p := by simpa using h
      refine ⟨fun _ => hp ▸ hwork (Or.inr h2), fun hc => ?_⟩
      exact absurd (h2.symm.trans hc) (by decide)
    · rw [if_neg h2] at h
      by_cases h3 : job.status = "completed"
      · rw [if_pos h3] at h
        have hp : (100 : Int) = p := by simpa using h
        exact ⟨fun hne => absurd h3 hne, fun _ => hp.symm⟩
      · rw [if_neg h3] at h
        exact absurd h (by simp)

/-- Witness for C2 at a completed job. -/
theorem displayedProgress_bounds_witness :
    ((Job.mk "completed" 0 0 0 []).status ≠ "completed" → (100 : Int) ≤ 99) ∧
    ((Job.mk "completed" 0 0 0 []).status = "completed" → (100 : Int) = 100) :=
  displayedProgress_bounds _ 100 (by decide)

/-- C3: the queue-table renderer and the header status poller compute the
same percent for every job snapshot the poller handles (a job found with
status `"processing"`); the formula is reproduced bit for bit across both
call sites. -/
theorem queue_and_header_progress_agree (job : Job)
    (h : job.status = "processing") :
    renderJobRowProgress job = startStatusPollingProgress job := by
  unfold renderJobRowProgress startStatusPollingProgress
  rw [if_pos (Or.inl h)]

/-- Witness for C3 at a concrete processing snapshot. -/
theorem queue_and_header_progress_agree_witness :
    renderJobRowProgress (Job.mk "processing" 0 2 1 [ChapterState.mk 0 "processing" 1 2]) =
      startStatusPollingProgress
        (Job.mk "processing" 0 2 1 [ChapterState.mk 0 "processing" 1 2]) :=
  queue_and_header_progress_agree _ rfl

/-- C4: the snapshot with `total_chapters = 3`, `completed_chapters = 1` and
one chapter processing at `current_chunk = 2` of `total_chunks = 4` yields a
running fraction of 1/2 and an overall percent of 50. -/
theorem progress_example_snapshot :
    runningFraction [ChapterState.mk 0 "processing" 2 4] = 1 / 2 ∧
    renderJobRowProgress
      (Job.mk "processing" 0 3 1 [ChapterState.mk 0 "processing" 2 4]) = 50 := by
  have hrf : runningFraction [ChapterState.mk 0 "processing" 2 4] = 1 / 2 := by
    rw [runningFraction_cons]
    norm_num [runningFraction]
  refine ⟨hrf, ?_⟩
  unfold renderJobRowProgress
  rw [if_pos (Or.inl rfl)]
  norm_num [hrf]

/-- C5 counterexample: the row of a processing job offers no cancel button,
although the claim says cancel is offered while processing. -/
theorem cancel_missing_while_processing :
    ActionButton.cancelBtn ∉ renderJobRowActions (Job.mk "processing" 0 0 0 []) := by
  decide

/-- C5 amended: the pause button is offered exactly when the status is
`"processing"`, the resume button exactly when it is `"paused"`, and the
cancel button exactly when it is `"queued"` (the delete button is always
offered). -/
theorem actions_match_status (job : Job) :
    (ActionButton.pauseBtn ∈ renderJobRowActions job ↔ job.status = "processing") ∧
    (ActionButton.resumeBtn ∈ renderJobRowActions job ↔ job.status = "paused") ∧
    (ActionButton.cancelBtn ∈ renderJobRowActions job ↔ job.status = "queued") := by
  unfold renderJobRowActions
  by_cases h1 : job.status = "processing"
  · simp [h1]
  · by_cases h2 : job.status = "paused"
    · simp [h1, h2]
    · by_cases h3 : job.status = "queued"
      · simp [h1, h2, h3]
      · simp [h1, h2, h3]

/-- C9: the progress computation never divides by zero and is bounded: a
chapter state with `total_chunks = 0` contributes nothing to the running
fraction, a job with `total_chapters = 0` (or missing) is treated as having
one chapter, and the computed percent of a processing or paused job is an
integer between 0 and 99. -/
theorem progress_total_and_bounded :
    (∀ (st : ChapterState) (states : List ChapterState), st.total_chunks = 0 →
      runningFraction (st :: states) = runningFraction states) ∧
    (∀ job : Job, job.total_chapters = 0 →
      renderJobRowProgress job =
        renderJobRowProgress
          (Job.mk job.status job.progress 1 job.completed_chapters job.chapter_states)) ∧
    (∀ job : Job, job.status = "processing" ∨ job.status = "paused" →
      0 ≤ renderJobRowProgress job ∧ renderJobRowProgress job ≤ 99) := by
  refine ⟨?_, ?_, ?_⟩
  · intro st states h0
    rw [runningFraction_cons, if_neg, zero_add]
    rintro ⟨-, hpos⟩
    omega
  · intro job h0
    unfold renderJobRowProgress
    rw [h0]
    simp
  · intro job hw
    unfold renderJobRowProgress
    rw [if_pos hw]
    constructor
    · have hnum : (0 : ℚ) ≤ (job.completed_chapters : ℚ) +
          runningFraction job.chapter_states := by
        have := runningFraction_nonneg job.chapter_states
        have : (0 : ℚ) ≤ (job.completed_chapters : ℚ) := Nat.cast_nonneg _
        linarith [runningFraction_nonneg job.chapter_states]
      have hden : (0 : ℚ) ≤
          ((if job.total_chapters = 0 then 1 else job.total_chapters : Nat) : ℚ) :=
        Nat.cast_nonneg _
      have hq : (0 : ℚ) ≤ ((job.completed_chapters : ℚ) +
          runningFraction job.chapter_states) /
          ((if job.total_chapters = 0 then 1 else job.total_chapters : Nat) : ℚ) * 100 := by
        have := div_nonneg hnum hden
        linarith
      exact le_min (by norm_num) (Int.floor_nonneg.mpr hq)
    · exact min_le_left _ _

/-- Witness for C9 at concrete inputs: a zero-chunk chapter contributes
nothing, and a concrete paused job's percent is within bounds. -/
theorem progress_total_and_bounded_witness :
    runningFraction [ChapterState.mk 0 "processing" 5 0] = runningFraction [] ∧
    renderJobRowProgress (Job.mk "queued" 7 0 0 []) =
      renderJobRowProgress (Job.mk "queued" 7 1 0 []) ∧
    0 ≤ renderJobRowProgress (Job.mk "paused" 0 2 1 []) ∧
    renderJobRowProgress (Job.mk "paused" 0 2 1 []) ≤ 99 :=
  ⟨progress_total_and_bounded.1 _ [] rfl,
    progress_total_and_bounded.2.1 _ rfl,
    (progress_total_and_bounded.2.2 _ (Or.inr rfl)).1,
    (progress_total_and_bounded.2.2 _ (Or.inr rfl)).2⟩

/-- The whitespace characters recognised by the model of JS `trim()` and of
the regex class `\s`: the ASCII whitespace set (the exotic Unicode space
code points play no role in the properties under verification). -/
def jsWhitespace (c : Char) : Bool :=
  c = ' ' || c = '\t' || c = '\n' || c = '\r' || c = '\x0b' || c = '\x0c'

/-- JS `String.prototype.trim`, on the character-list view of a string:
drop whitespace from both ends. -/
def trimChars (s : List Char) : List Char :=
  ((s.dropWhile jsWhitespace).reverse.dropWhile jsWhitespace).reverse

/-- The chapter-break marker the import splits on. -/
def rozdzialMarker : List Char := "{ROZDZIAL}".toList

/-- JS `String.prototype.split` with a non-empty string separator, scanning
left to right and splitting at each non-overlapping occurrence. The fuel
argument (instantiated with the text length, which bounds the number of
steps) keeps the recursion structural. -/
def splitOnFuel (sep : List Char) : Nat → List Char → List Char → List (List Char)
  | 0, s, acc => [acc.reverse ++ s]
  | fuel + 1, s, acc =>
    match s with
    | [] => [acc.reverse]
    | c :: rest =>
      if sep.isPrefixOf (c :: rest) then
        acc.reverse :: splitOnFuel sep fuel (List.drop sep.length (c :: rest)) []
      else
        splitOnFuel sep fuel rest (c :: acc)

/-- `text.split("{ROZDZIAL}")` from `importChapters` (main.js line 497). -/
def splitOnMarker (s : List Char) : List (List Char) :=
  splitOnFuel rozdzialMarker s.length s []

/-- `importChapters` (main.js lines 489–511): trim the textarea value, bail
out (warning toast, `none`) on empty text; split on `{ROZDZIAL}`, trim each
part and keep the non-empty ones; bail out (`none`) unless more than one
part remains; otherwise the kept parts become the chapter list. -/
def importChapters (raw : List Char) : Option (List (List Char)) :=
  if trimChars raw = [] then none
  else
    if (((splitOnMarker (trimChars raw)).map trimChars).filter
        (fun p => !p.isEmpty)).length ≤ 1 then none
    else some (((splitOnMarker (trimChars raw)).map trimChars).filter
        (fun p => !p.isEmpty))

/-- `sep` occurs as a contiguous run somewhere in the text (what the JS
`split` call detects when it produces more than one part). -/
def occursAnywhere (sep : List Char) : List Char → Bool
  | [] => sep.isPrefixOf []
  | c :: rest => sep.isPrefixOf (c :: rest) || occursAnywhere sep rest

/-- A character the regex `\[([^\]/]+)\]` allows inside a tag: anything but
`]` and `/`. -/
def isTagChar (c : Char) : Bool := c != ']' && c != '/'

/-- One pass of `text.match(/\[([^\]\/]+)\]/g)` (main.js line 140), keeping
the text between the brackets of each match. The global regex scans left to
right: at a `[` it takes the maximal run of tag characters and succeeds when
that run is non-empty and followed by `]`, resuming after the match;
otherwise the scan resumes at the next character. Fuel (instantiated with
the text length, which bounds the number of steps) keeps the recursion
structural. -/
def findTagNamesFuel : Nat → List Char → List (List Char)
  | 0, _ => []
  | fuel + 1, s =>
    match s with
    | [] => []
    | c :: rest =>
      if c = '[' then
        match rest.takeWhile isTagChar, rest.dropWhile isTagChar with
        | [], _ => findTagNamesFuel fuel rest
        | run, ']' :: tail => run :: findTagNamesFuel fuel tail
        | _, _ => findTagNamesFuel fuel rest
      else findTagNamesFuel fuel rest

/-- The bracketed names found in a text. -/
def findTagNames (s : List Char) : List (List Char) :=
  findTagNamesFuel s.length s

/-- The names `updateLiveStats` excludes from the speaker set
(main.js line 146). -/
def excludedTagNames : List (List Char) :=
  ["sigh".toList, "laugh".toList, "cough".toList, "pause".toList,
    "/narrator".toList, "/default".toList]

/-- `name.startsWith("/")` (main.js line 149). -/
def startsWithSlash : List Char → Bool
  | '/' :: _ => true
  | _ => false

/-- The distinct lowered tag names kept in the `speakers` set by
`updateLiveStats` (main.js lines 141–153): each match's name is lowercased
and added unless it is one of the excluded inline tags or starts with a
slash; a JS `Set` keeps one copy of each. -/
def speakerSet (s : List Char) : List (List Char) :=
  (((findTagNames s).map (fun n => n.map Char.toLower)).filter
    (fun n => !(excludedTagNames.contains n || startsWithSlash n))).dedup

/-- Number of maximal whitespace-free runs, tracking whether the previous
character was inside a word. -/
def wordCountAux : List Char → Bool → Nat
  | [], _ => 0
  | c :: rest, inWord =>
    if jsWhitespace c then wordCountAux rest false
    else (if inWord then 0 else 1) + wordCountAux rest true

/-- The word count of `updateLiveStats` (main.js line 129):
`text.trim() ? text.trim().split(/\s+/).length : 0`, i.e. the number of
maximal whitespace-free runs of the text (splitting the trimmed text on
whitespace runs yields exactly those runs, and an all-whitespace text has
none). -/
def wordCount (s : List Char) : Nat := wordCountAux s false

/-- The number shown as `stat-speakers` (main.js lines 154–155):
`speakers.size || (words > 0 ? 1 : 0)`. -/
def statSpeakers (s : List Char) : Nat :=
  if (speakerSet s).length = 0 then (if 0 < wordCount s then 1 else 0)
  else (speakerSet s).length

/-- The part of the settings document the silence-trim threshold logic
touches: the value of the `s-artifacts-ae-thresh` range input, `none` when
the element is absent. Values are idealized as exact rationals. -/
structure ThresholdDom where
  ae_thresh_value : Option ℚ

/-- The threshold the settings tab renders into the slider and its label
(settings source lines 246–251): the stored
`artifacts.autoeditor_threshold`, defaulting to `4.0` (percent). -/
def renderedThreshold (stored : Option ℚ) : ℚ := stored.getD 4

/-- The `artifacts.autoeditor_threshold` value persisted by `save()`
(settings source lines 368–375):
`parseFloat(get('s-artifacts-ae-thresh')?.value || 0.04)`. -/
def savedThreshold (dom : ThresholdDom) : ℚ :=
  match dom.ae_thresh_value with
  | some v => v
  | none => 0.04

/-- One character of `escapeHtml` output. `escapeHtml` (main.js lines
848–852) appends its input to a detached `div` as a DOM text node and reads
back `innerHTML`; the browser serialises a text node by escaping `&` to
`&amp;`, no-break space to `&nbsp;`, `<` to `&lt;` and `>` to `&gt;`, and
keeps every other character (WHATWG HTML fragment-serialisation rules). -/
def escapeHtmlChar (c : Char) : List Char :=
  if c = '&' then "&amp;".toList
  else if c = '\u00A0' then "&nbsp;".toList
  else if c = '<' then "&lt;".toList
  else if c = '>' then "&gt;".toList
  else [c]

/-- `escapeHtml` from main.js on the character-list view of a string. -/
def escapeHtml (s : List Char) : List Char := s.flatMap escapeHtmlChar

/-- When the separator occurs nowhere in the text, the split scan returns
the whole text as its single part, for any fuel and accumulator. -/
theorem splitOnFuel_of_no_occurrence (sep : List Char) (n : Nat)
    (s acc : List Char) (h : occursAnywhere sep s = false) :
    splitOnFuel sep n s acc = [acc.reverse ++ s] := by
  induction n generalizing s acc with
  | zero => rfl
  | succ n ih =>
    cases s with
    | nil => simp [splitOnFuel]
    | cons c rest =>
      have hor := h
      simp only [occursAnywhere, Bool.or_eq_false_iff] at hor
      simp only [splitOnFuel]
      rw [if_neg (by simp [hor.1]), ih rest (c :: acc) hor.2]
      simp

/-- A prefix occurrence is an occurrence. -/
theorem occursAnywhere_of_isPrefixOf (sep s : List Char)
    (h : sep.isPrefixOf s = true) : occursAnywhere sep s = true := by
  cases s with
  | nil => simpa [occursAnywhere] using h
  | cons c rest => simp [occursAnywhere, h]

/-- `occursAnywhere` detects exactly the contiguous occurrences: it is true
iff the separator is an infix of the text. -/
theorem occursAnywhere_iff_isInfix (sep s : List Char) :
    occursAnywhere sep s = true ↔ sep <:+: s := by
  constructor
  · intro h
    induction s with
    | nil =>
      simp only [occursAnywhere] at h
      exact (List.isPrefixOf_iff_prefix.mp h).isInfix
    | cons c rest ih =>
      simp only [occursAnywhere, Bool.or_eq_true] at h
      rcases h with h | h
      · exact (List.isPrefixOf_iff_prefix.mp h).isInfix
      · exact (ih h).trans (List.suffix_cons c rest).isInfix
  · rintro ⟨u, v, rfl⟩
    induction u with
    | nil =>
      exact occursAnywhere_of_isPrefixOf _ _
        (List.isPrefixOf_iff_prefix.mpr
          (by simp only [List.append_assoc]; exact List.prefix_append sep v))
    | cons a u ih =>
      have ih' : occursAnywhere sep (u ++ (sep ++ v)) = true := by
        simpa [List.append_assoc] using ih
      simp [occursAnywhere, ih']

/-- The trimmed text is a contiguous slice of the original. -/
theorem trimChars_isInfix (s : List Char) : trimChars s <:+: s := by
  have h1 : s.dropWhile jsWhitespace <:+ s := List.dropWhile_suffix _
  have h3 : trimChars s <+: s.dropWhile jsWhitespace := by
    unfold trimChars
    apply List.reverse_suffix.mp
    rw [List.reverse_reverse]
    exact List.dropWhile_suffix _
  exact h3.isInfix.trans h1.isInfix

/-- If the separator occurs nowhere in a text, it occurs nowhere in any
contiguous slice of it. -/
theorem occursAnywhere_false_of_isInfix (sep t s : List Char)
    (hinf : t <:+: s) (h : occursAnywhere sep s = false) :
    occursAnywhere sep t = false := by
  by_contra hne
  have ht : occursAnywhere sep t = true := by
    cases hval : occursAnywhere sep t
    · exact absurd hval hne
    · rfl
  have : occursAnywhere sep s = true :=
    (occursAnywhere_iff_isInfix sep s).mpr
      (((occursAnywhere_iff_isInfix sep t).mp ht).trans hinf)
  rw [this] at h
  cases h

/-- C6: chapter segmentation is deterministic — re-running the import on the
same input yields the same ordered chapter list — and an input in which the
`{ROZDZIAL}` marker occurs nowhere yields no chapter list at all (its split
has at most one non-empty part, and the import refuses it). -/
theorem importChapters_deterministic_no_marker (s : List Char) :
    importChapters s = importChapters s ∧
    (occursAnywhere rozdzialMarker s = false → importChapters s = none) := by
  refine ⟨rfl, fun hno => ?_⟩
  unfold importChapters
  by_cases he : trimChars s = []
  · rw [if_pos he]
  · rw [if_neg he]
    have htrim : occursAnywhere rozdzialMarker (trimChars s) = false :=
      occursAnywhere_false_of_isInfix _ _ _ (trimChars_isInfix s) hno
    have hsplit : splitOnMarker (trimChars s) = [trimChars s] := by
      unfold splitOnMarker
      simpa using
        splitOnFuel_of_no_occurrence rozdzialMarker (trimChars s).length
          (trimChars s) [] htrim
    rw [hsplit]
    have hlen : ((([trimChars s].map trimChars)).filter
        (fun p => !p.isEmpty)).length ≤ 1 :=
      le_trans (List.length_filter_le _ _) (by simp)
    rw [if_pos hlen]

/-- Witness for C6 at a concrete marker-free input. -/
theorem importChapters_deterministic_no_marker_witness :
    occursAnywhere rozdzialMarker "Hello world".toList = false ∧
    importChapters "Hello world".toList = none :=
  ⟨by decide,
    (importChapters_deterministic_no_marker "Hello world".toList).2 (by decide)⟩

/-- C7: when every tag found in the text is one the stats code excludes (an
inline tag or a closing tag), the displayed speaker count falls back to the
implicit default speaker: 1 when the text has at least one word, 0 when it
has none. -/
theorem untagged_text_default_speaker (s : List Char)
    (h : ∀ n ∈ findTagNames s,
      (excludedTagNames.contains (n.map Char.toLower)
        || startsWithSlash (n.map Char.toLower)) = true) :
    (0 < wordCount s → statSpeakers s = 1) ∧
    (wordCount s = 0 → statSpeakers s = 0) := by
  have hset : speakerSet s = [] := by
    unfold speakerSet
    have hfil : (((findTagNames s).map (fun n => n.map Char.toLower)).filter
        (fun n => !(excludedTagNames.contains n || startsWithSlash n))) = [] := by
      rw [List.filter_eq_nil_iff]
      intro a ha
      obtain ⟨n, hn, rfl⟩ := List.mem_map.mp ha
      simp only [h n hn]
      simp
    rw [hfil]
    rfl
  constructor
  · intro hw
    unfold statSpeakers
    rw [hset]
    simp [hw]
  · intro hw
    unfold statSpeakers
    rw [hset]
    simp [hw]

/-- Witness for C7 at a concrete text whose only tags are excluded. -/
theorem untagged_text_default_speaker_witness :
    0 < wordCount "Ala ma [sigh] kota [/narrator]".toList ∧
    statSpeakers "Ala ma [sigh] kota [/narrator]".toList = 1 :=
  ⟨by decide,
    (untagged_text_default_speaker _ (by decide)).1 (by decide)⟩

/-- C8: the threshold control renders with a percent default of `4.0`, but
the save path's fallback — used exactly when the control element is absent —
persists `0.04`, which is the fraction form of that percentage (it is the
rendered default divided by 100), not the percent value itself. -/
theorem savedThreshold_fallback_is_fraction :
    renderedThreshold none = 4 ∧ savedThreshold ⟨none⟩ = 0.04 ∧
      savedThreshold ⟨none⟩ * 100 = renderedThreshold none := by
  refine ⟨rfl, rfl, ?_⟩
  norm_num [savedThreshold, renderedThreshold]

/-- No escaped character expansion contains a raw angle bracket. -/
theorem escapeHtmlChar_no_angles (c : Char) :
    (escapeHtmlChar c).all (fun d => d != '<' && d != '>') = true := by
  unfold escapeHtmlChar
  by_cases h1 : c = '&'
  · rw [if_pos h1]; decide
  · rw [if_neg h1]
    by_cases h2 : c = ' '
    · rw [if_pos h2]; decide
    · rw [if_neg h2]
      by_cases h3 : c = '<'
      · rw [if_pos h3]; decide
      · rw [if_neg h3]
        by_cases h4 : c = '>'
        · rw [if_pos h4]; decide
        · rw [if_neg h4]
          simp [List.all_cons, h3, h4]

/-- C10: `escapeHtml` output contains no raw `<` or `>` character — every
`<` of the input is rendered as `&lt;`, every `>` as `&gt;` and every `&` as
`&amp;` — so a value interpolated through it cannot introduce an HTML
element. -/
theorem escapeHtml_no_raw_angles (s : List Char) :
    (escapeHtml s).all (fun d => d != '<' && d != '>') = true ∧
    escapeHtmlChar '<' = "&lt;".toList ∧
    escapeHtmlChar '>' = "&gt;".toList ∧
    escapeHtmlChar '&' = "&amp;".toList := by
  refine ⟨?_, by decide, by decide, by decide⟩
  rw [List.all_eq_true]
  intro d hd
  obtain ⟨c, -, hc⟩ := List.mem_flatMap.mp hd
  exact List.all_eq_true.mp (escapeHtmlChar_no_angles c) d hc

end TTSFlask
